import Mathlib

/-!
Verification of the `sark_grids` 2d grid geometry library.

The Rust source is shallowly embedded: `glam::IVec2` becomes a pair of
integers, each iterator becomes a state structure with an explicit
`next : State → Option Cell × State` step function, and machine
arithmetic is modelled with explicit wrap-around where the source can
overflow (release-build semantics): `usize` subtraction wraps modulo
`2^64` and the `i32` operations of `from_points` and the cone's cross
products wrap through `wrap32` (debug builds panic at these spots
instead).  Floating point computations (`GridLine`, `GridLineOrtho`,
`GridCircle`) are modelled with exact rationals plus an explicit NaN
value where the source can produce one; every theorem about those models
is evaluated only at inputs where `f32` arithmetic is exact, so the
model agrees with the source there.
-/

namespace SarkGrids

/-- Model of `glam::IVec2`: a signed 2d integer vector. -/
structure IVec2 where
  x : ℤ
  y : ℤ
deriving DecidableEq

instance : Add IVec2 := ⟨fun a b => ⟨a.x + b.x, a.y + b.y⟩⟩
instance : Sub IVec2 := ⟨fun a b => ⟨a.x - b.x, a.y - b.y⟩⟩

theorem IVec2.add_def (a b : IVec2) : a + b = ⟨a.x + b.x, a.y + b.y⟩ := rfl

theorem IVec2.sub_def (a b : IVec2) : a - b = ⟨a.x - b.x, a.y - b.y⟩ := rfl

/-- Componentwise minimum, model of `IVec2::min`. -/
def IVec2.cmin (a b : IVec2) : IVec2 := ⟨min a.x b.x, min a.y b.y⟩

/-- Componentwise maximum, model of `IVec2::max`. -/
def IVec2.cmax (a b : IVec2) : IVec2 := ⟨max a.x b.x, max a.y b.y⟩

/-- Componentwise `≤` on grid points. -/
def IVec2.le (a b : IVec2) : Prop := a.x ≤ b.x ∧ a.y ≤ b.y

instance (a b : IVec2) : Decidable (a.le b) := by unfold IVec2.le; infer_instance

/-- Wrap a mathematical integer into the `i32` two's-complement range
`[-2^31, 2^31)`: the value an overflowing `i32` operation produces in a
release build (a debug build panics instead).  `2147483648 = 2^31`,
`4294967296 = 2^32`. -/
def wrap32 (z : ℤ) : ℤ := (z + 2147483648) % 4294967296 - 2147483648

theorem wrap32_eq_self {z : ℤ} (h1 : -2147483648 ≤ z) (h2 : z < 2147483648) :
    wrap32 z = z := by
  unfold wrap32
  omega

/-- Model of `GridRect`: a bottom-left position `xy` and a `size`. -/
structure GridRect where
  xy : IVec2
  size : IVec2
deriving DecidableEq

namespace GridRect

/-- Bottom left position of the rect (`GridRect::min`). -/
def min (r : GridRect) : IVec2 := r.xy

/-- Top right position of the rect (`GridRect::max`): `xy + size - 1`. -/
def max (r : GridRect) : IVec2 := ⟨r.xy.x + r.size.x - 1, r.xy.y + r.size.y - 1⟩

/-- Model of `GridRect::from_points`: min/max are re-sorted componentwise
and `size = (max - min) + 1` is computed in `i32`: both the subtraction
and the increment wrap in release builds (`wrap32`; a debug build panics
on the overflow instead). -/
def from_points (a b : IVec2) : GridRect :=
  ⟨a.cmin b,
    ⟨wrap32 (wrap32 ((a.cmax b).x - (a.cmin b).x) + 1),
     wrap32 (wrap32 ((a.cmax b).y - (a.cmin b).y) + 1)⟩⟩

/-- Model of `GridRect::clipped`: intersection corners fed back through
`from_points`. -/
def clipped (r clipper : GridRect) : GridRect :=
  from_points (r.min.cmax clipper.min) (r.max.cmin clipper.max)

/-- Model of `GridRect::envelope_point`. -/
def envelope_point (r : GridRect) (point : IVec2) : GridRect :=
  from_points (r.min.cmin point) (r.max.cmax point)

/-- Model of `GridRect::envelope_rect`. -/
def envelope_rect (r rect : GridRect) : GridRect :=
  (r.envelope_point rect.min).envelope_point rect.max

/-- Model of `GridRect::center`: `xy + size / 2` with Rust `i32` division
(truncation toward zero). -/
def center (r : GridRect) : IVec2 := ⟨r.xy.x + Int.tdiv r.size.x 2, r.xy.y + Int.tdiv r.size.y 2⟩

/-- Model of `GridRect::contains`. -/
def contains (r : GridRect) (p : IVec2) : Prop := r.min.le p ∧ p.le r.max

instance (r : GridRect) (p : IVec2) : Decidable (r.contains p) := by
  unfold contains; infer_instance

end GridRect

/-- The five pivot anchors of a rect (`Pivot`). -/
inductive Pivot where
  | TopLeft
  | TopRight
  | Center
  | BottomLeft
  | BottomRight
deriving DecidableEq

/-- Model of `GridRect::pivot_point`, exactly as the source's `match`
(including the `BottomRight => [max.x, max.y]` arm). -/
def GridRect.pivot_point (r : GridRect) (p : Pivot) : IVec2 :=
  match p with
  | .TopLeft => ⟨r.min.x, r.max.y⟩
  | .TopRight => ⟨r.max.x, r.max.y⟩
  | .Center => r.center
  | .BottomLeft => ⟨r.min.x, r.min.y⟩
  | .BottomRight => ⟨r.max.x, r.max.y⟩

/-- Model of `GridRect::corners`: `[bottom-left, top-left, top-right,
bottom-right]`. -/
def GridRect.corners (r : GridRect) : List IVec2 :=
  [r.min, ⟨r.min.x, r.max.y⟩, r.max, ⟨r.max.x, r.min.y⟩]

/-- The list of integers `a, a+1, ..., b` (empty when `b < a`). -/
def idxList (a b : ℤ) : List ℤ := (List.range (b + 1 - a).toNat).map (fun n : ℕ => a + (n : ℤ))

/-- The grid cell of linear row-major index `i` inside a region with origin
`o` and width `s.x`. -/
def cellAtIdx (o s : IVec2) (i : ℤ) : IVec2 := o + ⟨i.emod s.x, i.ediv s.x⟩

/-- The row-major list of all cells of a rect, bottom-left first: the
reference enumeration the spec describes for `GridRectIter`. -/
def GridRect.cells (r : GridRect) : List IVec2 :=
  (idxList 0 (r.size.x * r.size.y - 1)).map (cellAtIdx r.xy r.size)

/-- Model of `GridRectIter`: a double ended cursor over the cells of a
rect.  `head` and `tail` are offsets from `origin`. -/
structure GridRectIter where
  origin : IVec2
  size : IVec2
  head : IVec2
  tail : IVec2
deriving DecidableEq

namespace GridRectIter

/-- Model of `GridRectIter::new`. -/
def new (rect : GridRect) : GridRectIter :=
  ⟨rect.xy, rect.size, ⟨0, 0⟩, ⟨rect.size.x - 1, rect.size.y - 1⟩⟩

/-- Model of `<GridRectIter as Iterator>::next`: emit `origin + head`,
then advance `head.x`, wrapping to the next row when it reaches `size.x`
(the two non-exhausted branches spell out the wrap test `head.x + 1 ≥
size.x` of the source). -/
def next (it : GridRectIter) : Option IVec2 × GridRectIter :=
  if it.head.y > it.tail.y ∨ (it.head.y = it.tail.y ∧ it.head.x > it.tail.x) then
    (none, it)
  else if it.head.x + 1 ≥ it.size.x then
    (some (it.origin + it.head), { it with head := ⟨0, it.head.y + 1⟩ })
  else
    (some (it.origin + it.head), { it with head := ⟨it.head.x + 1, it.head.y⟩ })

/-- Model of `<GridRectIter as DoubleEndedIterator>::next_back`: emit
`origin + tail`, then retreat `tail.x`, wrapping to the row below when it
drops under `0`. -/
def next_back (it : GridRectIter) : Option IVec2 × GridRectIter :=
  if it.tail.y < it.head.y ∨ (it.tail.y = it.head.y ∧ it.tail.x < it.head.x) then
    (none, it)
  else if it.tail.x - 1 < 0 then
    (some (it.origin + it.tail), { it with tail := ⟨it.size.x - 1, it.tail.y - 1⟩ })
  else
    (some (it.origin + it.tail), { it with tail := ⟨it.tail.x - 1, it.tail.y⟩ })

/-- Drive the iterator by a list of directions: `true` calls `next`,
`false` calls `next_back`.  Returns the emitted cells and final state. -/
def run (it : GridRectIter) : List Bool → List IVec2 × GridRectIter
  | [] => ([], it)
  | d :: ds =>
    let s := if d then it.next else it.next_back
    let rest := s.2.run ds
    (s.1.toList ++ rest.1, rest.2)

/-- Linear row-major index of the forward cursor. -/
def headIdx (it : GridRectIter) : ℤ := it.size.x * it.head.y + it.head.x

/-- Linear row-major index of the backward cursor. -/
def tailIdx (it : GridRectIter) : ℤ := it.size.x * it.tail.y + it.tail.x

/-- The iterator is exhausted: the cursors have crossed. -/
def exhausted (it : GridRectIter) : Prop := it.tailIdx < it.headIdx

instance (it : GridRectIter) : Decidable it.exhausted := by
  unfold exhausted; infer_instance

/-- Invariant maintained by `next`/`next_back` from any positive-size
starting state. -/
def Inv (it : GridRectIter) : Prop :=
  1 ≤ it.size.x ∧ 0 ≤ it.head.x ∧ it.head.x < it.size.x ∧ 0 ≤ it.head.y ∧
    0 ≤ it.tail.x ∧ it.tail.x < it.size.x ∧ it.headIdx ≤ it.tailIdx + 1

end GridRectIter

theorem idxList_eq_nil {a b : ℤ} (h : b < a) : idxList a b = [] := by
  unfold idxList
  have : (b + 1 - a).toNat = 0 := by omega
  simp [this]

theorem idxList_eq_cons {a b : ℤ} (h : a ≤ b) : idxList a b = a :: idxList (a + 1) b := by
  unfold idxList
  have h1 : (b + 1 - a).toNat = (b + 1 - (a + 1)).toNat + 1 := by omega
  rw [h1, List.range_succ_eq_map]
  simp only [List.map_cons, List.map_map, Nat.cast_zero, add_zero]
  refine congrArg _ (List.map_congr_left fun n _ => ?_)
  simp only [Function.comp_apply]
  push_cast
  ring

theorem idxList_eq_concat {a b : ℤ} (h : a ≤ b) : idxList a b = idxList a (b - 1) ++ [b] := by
  unfold idxList
  have h1 : (b + 1 - a).toNat = (b - 1 + 1 - a).toNat + 1 := by omega
  have h2 : a + ((b - 1 + 1 - a).toNat : ℤ) = b := by omega
  rw [h1, List.range_succ]
  simp only [List.map_append, List.map_cons, List.map_nil, h2]

theorem mem_idxList {a b i : ℤ} : i ∈ idxList a b ↔ a ≤ i ∧ i ≤ b := by
  unfold idxList
  simp only [List.mem_map, List.mem_range]
  constructor
  · rintro ⟨n, hn, rfl⟩
    omega
  · rintro ⟨h1, h2⟩
    exact ⟨(i - a).toNat, by omega, by omega⟩

theorem idxList_nodup (a b : ℤ) : (idxList a b).Nodup := by
  unfold idxList
  exact (List.nodup_range _).map fun h => by omega

theorem lex_index {w a b c d : ℤ} (hw : 1 ≤ w) (hb0 : 0 ≤ b) (hbw : b < w)
    (hd0 : 0 ≤ d) (hdw : d < w) :
    w * a + b < w * c + d ↔ a < c ∨ (a = c ∧ b < d) := by
  constructor
  · intro h
    rcases lt_trichotomy a c with hac | hac | hac
    · exact Or.inl hac
    · exact Or.inr ⟨hac, by rw [hac] at h; linarith⟩
    · exfalso
      have h1 : w * (c + 1) ≤ w * a :=
        mul_le_mul_of_nonneg_left (by omega : c + 1 ≤ a) (by omega : (0:ℤ) ≤ w)
      have h2 : w * (c + 1) = w * c + w := by ring
      linarith
  · rintro (hac | ⟨rfl, hbd⟩)
    · have h1 : w * (a + 1) ≤ w * c :=
        mul_le_mul_of_nonneg_left (by omega : a + 1 ≤ c) (by omega : (0:ℤ) ≤ w)
      have h2 : w * (a + 1) = w * a + w := by ring
      linarith
    · linarith

theorem emod_of_bounds {w q x : ℤ} (h0 : 0 ≤ x) (hw : x < w) : (w * q + x).emod w = x := by
  rw [add_comm]
  show (x + w * q) % w = x
  rw [Int.add_mul_emod_self_left, Int.emod_eq_of_lt h0 hw]

theorem ediv_of_bounds {w q x : ℤ} (h0 : 0 ≤ x) (hw : x < w) : (w * q + x).ediv w = q := by
  rw [add_comm]
  show (x + w * q) / w = q
  rw [Int.add_mul_ediv_left _ _ (by omega : w ≠ 0),
    Int.ediv_eq_zero_of_lt h0 hw, zero_add]

theorem cellAtIdx_at {o s : IVec2} {q x : ℤ} (h0 : 0 ≤ x) (hw : x < s.x) :
    cellAtIdx o s (s.x * q + x) = o + ⟨x, q⟩ := by
  unfold cellAtIdx
  rw [emod_of_bounds h0 hw, ediv_of_bounds h0 hw]

theorem cellAtIdx_injective (o s : IVec2) :
    Function.Injective (cellAtIdx o s) := by
  intro i j h
  unfold cellAtIdx at h
  simp only [IVec2.add_def, IVec2.mk.injEq] at h
  have hi := Int.emod_add_ediv i s.x
  have hj := Int.emod_add_ediv j s.x
  obtain ⟨h1, h2⟩ := h
  have h1' : i.emod s.x = j.emod s.x := by omega
  have h2' : i.ediv s.x = j.ediv s.x := by omega
  calc i = i.emod s.x + s.x * i.ediv s.x := (Int.emod_add_ediv i s.x).symm
    _ = j.emod s.x + s.x * j.ediv s.x := by rw [h1', h2']
    _ = j := Int.emod_add_ediv j s.x

theorem idxList_append {a b c : ℤ} (h1 : a - 1 ≤ c) (h2 : c ≤ b) :
    idxList a c ++ idxList (c + 1) b = idxList a b := by
  unfold idxList
  have hN : (b + 1 - a).toNat = (c + 1 - a).toNat + (b - c).toNat := by omega
  have h3 : (b + 1 - (c + 1)).toNat = (b - c).toNat := by omega
  rw [hN, List.range_add, List.map_append, List.map_map, h3]
  refine congrArg _ (List.map_congr_left fun n _ => ?_)
  simp only [Function.comp_apply]
  omega

namespace GridRectIter

theorem next_guard {it : GridRectIter} (h : it.Inv) :
    (it.head.y > it.tail.y ∨ (it.head.y = it.tail.y ∧ it.head.x > it.tail.x)) ↔ it.exhausted := by
  obtain ⟨hw, hhx0, hhxw, _, htx0, htxw, _⟩ := h
  unfold exhausted tailIdx headIdx
  rw [lex_index hw htx0 htxw hhx0 hhxw]
  omega

theorem next_back_guard {it : GridRectIter} (h : it.Inv) :
    (it.tail.y < it.head.y ∨ (it.tail.y = it.head.y ∧ it.tail.x < it.head.x)) ↔ it.exhausted := by
  obtain ⟨hw, hhx0, hhxw, _, htx0, htxw, _⟩ := h
  unfold exhausted tailIdx headIdx
  rw [lex_index hw htx0 htxw hhx0 hhxw]

theorem next_of_exhausted {it : GridRectIter} (h : it.Inv) (hex : it.exhausted) :
    it.next = (none, it) := by
  unfold next
  rw [if_pos ((next_guard h).mpr hex)]

theorem next_back_of_exhausted {it : GridRectIter} (h : it.Inv) (hex : it.exhausted) :
    it.next_back = (none, it) := by
  unfold next_back
  rw [if_pos ((next_back_guard h).mpr hex)]

theorem next_spec {it : GridRectIter} (h : it.Inv) (hne : ¬ it.exhausted) :
    (it.next).1 = some (cellAtIdx it.origin it.size it.headIdx) ∧
    (it.next).2.Inv ∧ (it.next).2.headIdx = it.headIdx + 1 ∧
    (it.next).2.tailIdx = it.tailIdx ∧
    (it.next).2.origin = it.origin ∧ (it.next).2.size = it.size := by
  have hle : it.headIdx ≤ it.tailIdx := by
    unfold exhausted at hne; omega
  obtain ⟨hw, hhx0, hhxw, hhy0, htx0, htxw, hht⟩ := h
  have hle' : it.size.x * it.head.y + it.head.x ≤ it.size.x * it.tail.y + it.tail.x := hle
  have hcell : cellAtIdx it.origin it.size it.headIdx = it.origin + it.head := by
    show cellAtIdx it.origin it.size (it.size.x * it.head.y + it.head.x) = _
    rw [cellAtIdx_at hhx0 hhxw]
  unfold next
  rw [if_neg ((next_guard ⟨hw, hhx0, hhxw, hhy0, htx0, htxw, hht⟩).not.mpr hne)]
  by_cases hcase : it.head.x + 1 ≥ it.size.x
  · rw [if_pos hcase]
    have hxeq : it.head.x = it.size.x - 1 := by omega
    have hr : it.size.x * (it.head.y + 1) = it.size.x * it.head.y + it.size.x := by ring
    refine ⟨by rw [hcell], ?_, ?_, rfl, rfl, rfl⟩
    · unfold Inv headIdx tailIdx
      dsimp only
      exact ⟨hw, le_refl 0, by omega, by omega, htx0, htxw, by linarith⟩
    · unfold headIdx
      dsimp only
      linarith
  · rw [if_neg hcase]
    refine ⟨by rw [hcell], ?_, ?_, rfl, rfl, rfl⟩
    · unfold Inv headIdx tailIdx
      dsimp only
      exact ⟨hw, by omega, by omega, by omega, htx0, htxw, by linarith⟩
    · unfold headIdx
      dsimp only
      linarith

theorem next_back_spec {it : GridRectIter} (h : it.Inv) (hne : ¬ it.exhausted) :
    (it.next_back).1 = some (cellAtIdx it.origin it.size it.tailIdx) ∧
    (it.next_back).2.Inv ∧ (it.next_back).2.tailIdx = it.tailIdx - 1 ∧
    (it.next_back).2.headIdx = it.headIdx ∧
    (it.next_back).2.origin = it.origin ∧ (it.next_back).2.size = it.size := by
  have hle : it.headIdx ≤ it.tailIdx := by
    unfold exhausted at hne; omega
  obtain ⟨hw, hhx0, hhxw, hhy0, htx0, htxw, hht⟩ := h
  have hle' : it.size.x * it.head.y + it.head.x ≤ it.size.x * it.tail.y + it.tail.x := hle
  have hcell : cellAtIdx it.origin it.size it.tailIdx = it.origin + it.tail := by
    show cellAtIdx it.origin it.size (it.size.x * it.tail.y + it.tail.x) = _
    rw [cellAtIdx_at htx0 htxw]
  unfold next_back
  rw [if_neg ((next_back_guard ⟨hw, hhx0, hhxw, hhy0, htx0, htxw, hht⟩).not.mpr hne)]
  by_cases hcase : it.tail.x - 1 < 0
  · rw [if_pos hcase]
    have hxeq : it.tail.x = 0 := by omega
    have hr : it.size.x * (it.tail.y - 1) = it.size.x * it.tail.y - it.size.x := by ring
    refine ⟨by rw [hcell], ?_, ?_, rfl, rfl, rfl⟩
    · unfold Inv headIdx tailIdx
      dsimp only
      exact ⟨hw, hhx0, hhxw, hhy0, by omega, by omega, by linarith⟩
    · unfold tailIdx
      dsimp only
      linarith
  · rw [if_neg hcase]
    refine ⟨by rw [hcell], ?_, ?_, rfl, rfl, rfl⟩
    · unfold Inv headIdx tailIdx
      dsimp only
      exact ⟨hw, hhx0, hhxw, hhy0, by omega, by omega, by linarith⟩
    · unfold tailIdx
      dsimp only
      linarith

/-- Main invariant of interleaved iteration: any sequence of `next` and
`next_back` calls emits, up to permutation, the cells of two disjoint
index intervals: the ones consumed from the front and the ones consumed
from the back. -/
theorem run_spec (ds : List Bool) : ∀ (it : GridRectIter), it.Inv →
    (it.run ds).2.Inv ∧ (it.run ds).2.origin = it.origin ∧ (it.run ds).2.size = it.size ∧
    it.headIdx ≤ (it.run ds).2.headIdx ∧ (it.run ds).2.tailIdx ≤ it.tailIdx ∧
    (it.run ds).1.Perm
      ((idxList it.headIdx ((it.run ds).2.headIdx - 1) ++
        idxList ((it.run ds).2.tailIdx + 1) it.tailIdx).map (cellAtIdx it.origin it.size)) := by
  induction ds with
  | nil =>
    intro it h
    refine ⟨h, rfl, rfl, le_refl _, le_refl _, ?_⟩
    show ([] : List IVec2).Perm
      ((idxList it.headIdx (it.headIdx - 1) ++
        idxList (it.tailIdx + 1) it.tailIdx).map (cellAtIdx it.origin it.size))
    rw [idxList_eq_nil (by omega), idxList_eq_nil (by omega)]
    exact List.Perm.refl _
  | cons d ds ih =>
    intro it h
    by_cases hex : it.exhausted
    · have hstep : (if d then it.next else it.next_back) = (none, it) := by
        cases d
        · exact next_back_of_exhausted h hex
        · exact next_of_exhausted h hex
      have hrun1 : (it.run (d :: ds)).1 = (it.run ds).1 := by
        show (if d then it.next else it.next_back).1.toList ++
          ((if d then it.next else it.next_back).2.run ds).1 = _
        rw [hstep]
        rfl
      have hrun2 : (it.run (d :: ds)).2 = (it.run ds).2 := by
        show ((if d then it.next else it.next_back).2.run ds).2 = _
        rw [hstep]
      rw [hrun1, hrun2]
      exact ih it h
    · cases d
      · obtain ⟨h1, h2, h3, h4, h5, h6⟩ := next_back_spec h hex
        obtain ⟨iInv, iO, iS, iH, iT, iPerm⟩ := ih (it.next_back).2 h2
        have hrun1 : (it.run (false :: ds)).1 =
            cellAtIdx it.origin it.size it.tailIdx :: ((it.next_back).2.run ds).1 := by
          show (it.next_back).1.toList ++ ((it.next_back).2.run ds).1 = _
          rw [h1]
          rfl
        have hrun2 : (it.run (false :: ds)).2 = ((it.next_back).2.run ds).2 := rfl
        rw [h3] at iPerm iT
        rw [h4] at iPerm iH
        rw [h5, h6] at iPerm
        rw [hrun1, hrun2]
        refine ⟨iInv, iO.trans h5, iS.trans h6, by omega, by omega, ?_⟩
        rw [idxList_eq_concat (by omega :
          (((it.next_back).2.run ds).2).tailIdx + 1 ≤ it.tailIdx), ← List.append_assoc]
        refine (iPerm.cons _).trans ?_
        simp only [List.map_append, List.map_cons, List.map_nil]
        exact @List.perm_append_comm _ [cellAtIdx it.origin it.size it.tailIdx] _
      · obtain ⟨h1, h2, h3, h4, h5, h6⟩ := next_spec h hex
        obtain ⟨iInv, iO, iS, iH, iT, iPerm⟩ := ih (it.next).2 h2
        have hrun1 : (it.run (true :: ds)).1 =
            cellAtIdx it.origin it.size it.headIdx :: ((it.next).2.run ds).1 := by
          show (it.next).1.toList ++ ((it.next).2.run ds).1 = _
          rw [h1]
          rfl
        have hrun2 : (it.run (true :: ds)).2 = ((it.next).2.run ds).2 := rfl
        rw [h3] at iPerm iH
        rw [h4] at iPerm iT
        rw [h5, h6] at iPerm
        rw [hrun1, hrun2]
        refine ⟨iInv, iO.trans h5, iS.trans h6, by omega, by omega, ?_⟩
        rw [idxList_eq_cons (by omega :
          it.headIdx ≤ (((it.next).2.run ds).2).headIdx - 1)]
        simp only [List.cons_append, List.map_cons]
        exact iPerm.cons _

/-- A pure forward run that exhausts the iterator emits the remaining
index interval in row-major order. -/
theorem run_forward : ∀ (k : ℕ) (it : GridRectIter), it.Inv →
    it.tailIdx + 1 - it.headIdx ≤ (k : ℤ) →
    (it.run (List.replicate k true)).1 =
      (idxList it.headIdx it.tailIdx).map (cellAtIdx it.origin it.size) := by
  intro k
  induction k with
  | zero =>
    intro it h hk
    rw [idxList_eq_nil (by omega)]
    rfl
  | succ k ih =>
    intro it h hk
    by_cases hex : it.exhausted
    · have hrun1 : (it.run (List.replicate (k + 1) true)).1 =
          (it.run (List.replicate k true)).1 := by
        show (it.next).1.toList ++ ((it.next).2.run (List.replicate k true)).1 = _
        rw [next_of_exhausted h hex]
        rfl
      unfold exhausted at hex
      rw [hrun1, ih it h (by omega), idxList_eq_nil (by omega)]
    · obtain ⟨h1, h2, h3, h4, h5, h6⟩ := next_spec h hex
      unfold exhausted at hex
      have hrun1 : (it.run (List.replicate (k + 1) true)).1 =
          cellAtIdx it.origin it.size it.headIdx ::
            ((it.next).2.run (List.replicate k true)).1 := by
        show (it.next).1.toList ++ ((it.next).2.run (List.replicate k true)).1 = _
        rw [h1]
        rfl
      rw [hrun1, ih (it.next).2 h2 (by rw [h3, h4]; omega),
        h3, h4, h5, h6, idxList_eq_cons (by omega : it.headIdx ≤ it.tailIdx)]
      simp only [List.map_cons]

/-- A pure backward run that exhausts the iterator emits the remaining
index interval in reverse row-major order. -/
theorem run_backward : ∀ (k : ℕ) (it : GridRectIter), it.Inv →
    it.tailIdx + 1 - it.headIdx ≤ (k : ℤ) →
    (it.run (List.replicate k false)).1 =
      ((idxList it.headIdx it.tailIdx).reverse).map (cellAtIdx it.origin it.size) := by
  intro k
  induction k with
  | zero =>
    intro it h hk
    rw [idxList_eq_nil (by omega)]
    rfl
  | succ k ih =>
    intro it h hk
    by_cases hex : it.exhausted
    · have hrun1 : (it.run (List.replicate (k + 1) false)).1 =
          (it.run (List.replicate k false)).1 := by
        show (it.next_back).1.toList ++ ((it.next_back).2.run (List.replicate k false)).1 = _
        rw [next_back_of_exhausted h hex]
        rfl
      unfold exhausted at hex
      rw [hrun1, ih it h (by omega), idxList_eq_nil (by omega)]
    · obtain ⟨h1, h2, h3, h4, h5, h6⟩ := next_back_spec h hex
      unfold exhausted at hex
      have hrun1 : (it.run (List.replicate (k + 1) false)).1 =
          cellAtIdx it.origin it.size it.tailIdx ::
            ((it.next_back).2.run (List.replicate k false)).1 := by
        show (it.next_back).1.toList ++ ((it.next_back).2.run (List.replicate k false)).1 = _
        rw [h1]
        rfl
      rw [hrun1, ih (it.next_back).2 h2 (by rw [h3, h4]; omega),
        h3, h4, h5, h6, idxList_eq_concat (by omega : it.headIdx ≤ it.tailIdx)]
      simp only [List.reverse_append, List.reverse_cons, List.reverse_nil, List.nil_append,
        List.singleton_append, List.map_cons]

theorem new_inv {r : GridRect} (hx : 1 ≤ r.size.x) (hy : 1 ≤ r.size.y) : (new r).Inv := by
  have h1 : r.size.x * (r.size.y - 1) = r.size.x * r.size.y - r.size.x := by ring
  have h2 : 0 < r.size.x * r.size.y := mul_pos (by omega) (by omega)
  unfold Inv headIdx tailIdx new
  dsimp only
  refine ⟨hx, le_refl 0, by omega, le_refl 0, by omega, by omega, by linarith⟩

theorem new_headIdx (r : GridRect) : (new r).headIdx = 0 := by
  show r.size.x * 0 + 0 = 0
  ring

theorem new_tailIdx (r : GridRect) : (new r).tailIdx = r.size.x * r.size.y - 1 := by
  show r.size.x * (r.size.y - 1) + (r.size.x - 1) = _
  ring

end GridRectIter

/-- C2 (amended to positive sizes): for every `GridRect` with `size ≥ 1`
on both axes and every interleaving of `next` and `next_back` calls, the
emitted cells are pairwise distinct cells of the rect; a run that
exhausts the iterator emits exactly the `width*height` cells of the rect,
each once; the pure forward run is the row-major cell list starting at
the bottom-left cell and the pure backward run is its exact reverse. -/
theorem gridRectIter_interleave (r : GridRect) (hx : 1 ≤ r.size.x) (hy : 1 ≤ r.size.y)
    (ds : List Bool) :
    (((GridRectIter.new r).run ds).1.Nodup ∧
      ∀ c ∈ ((GridRectIter.new r).run ds).1, c ∈ r.cells) ∧
    (((GridRectIter.new r).run ds).2.exhausted →
      ((GridRectIter.new r).run ds).1.Perm r.cells) ∧
    ((GridRectIter.new r).run (List.replicate (r.size.x.toNat * r.size.y.toNat) true)).1 =
      r.cells ∧
    ((GridRectIter.new r).run (List.replicate (r.size.x.toNat * r.size.y.toNat) false)).1 =
      r.cells.reverse := by
  have hInv := GridRectIter.new_inv hx hy
  have hO : (GridRectIter.new r).origin = r.xy := rfl
  have hS : (GridRectIter.new r).size = r.size := rfl
  have hk : ((r.size.x.toNat * r.size.y.toNat : ℕ) : ℤ) = r.size.x * r.size.y := by
    rw [Nat.cast_mul, Int.toNat_of_nonneg (by omega), Int.toNat_of_nonneg (by omega)]
  obtain ⟨fInv, fO, fS, fH, fT, fPerm⟩ := GridRectIter.run_spec ds (GridRectIter.new r) hInv
  rw [GridRectIter.new_headIdx] at fPerm fH
  rw [GridRectIter.new_tailIdx] at fPerm fT
  rw [hO, hS] at fPerm
  have hcross : ((GridRectIter.new r).run ds).2.headIdx ≤
      ((GridRectIter.new r).run ds).2.tailIdx + 1 := fInv.2.2.2.2.2.2
  have hdisj : (idxList 0 (((GridRectIter.new r).run ds).2.headIdx - 1)).Disjoint
      (idxList (((GridRectIter.new r).run ds).2.tailIdx + 1) (r.size.x * r.size.y - 1)) := by
    intro i hiA hiB
    rw [mem_idxList] at hiA hiB
    omega
  have hnodup : (((GridRectIter.new r).run ds).1).Nodup := by
    rw [fPerm.nodup_iff]
    exact ((idxList_nodup _ _).append (idxList_nodup _ _) hdisj).map
      (cellAtIdx_injective r.xy r.size)
  refine ⟨⟨hnodup, ?_⟩, ?_, ?_, ?_⟩
  · intro c hc
    rw [fPerm.mem_iff] at hc
    obtain ⟨i, hi, rfl⟩ := List.mem_map.mp hc
    rw [List.mem_append, mem_idxList, mem_idxList] at hi
    unfold GridRect.cells
    exact List.mem_map.mpr ⟨i, mem_idxList.mpr (by omega), rfl⟩
  · intro hexh
    unfold GridRectIter.exhausted at hexh
    have hsplit : idxList 0 (((GridRectIter.new r).run ds).2.headIdx - 1) ++
        idxList (((GridRectIter.new r).run ds).2.tailIdx + 1) (r.size.x * r.size.y - 1) =
        idxList 0 (r.size.x * r.size.y - 1) := by
      have heq : ((GridRectIter.new r).run ds).2.headIdx - 1 =
          ((GridRectIter.new r).run ds).2.tailIdx := by omega
      rw [heq]
      exact idxList_append (by omega) (by omega)
    rw [hsplit] at fPerm
    exact fPerm
  · have := GridRectIter.run_forward (r.size.x.toNat * r.size.y.toNat) (GridRectIter.new r)
      hInv (by rw [GridRectIter.new_headIdx, GridRectIter.new_tailIdx, hk]; omega)
    rw [GridRectIter.new_headIdx, GridRectIter.new_tailIdx, hO, hS] at this
    exact this
  · have := GridRectIter.run_backward (r.size.x.toNat * r.size.y.toNat) (GridRectIter.new r)
      hInv (by rw [GridRectIter.new_headIdx, GridRectIter.new_tailIdx, hk]; omega)
    rw [GridRectIter.new_headIdx, GridRectIter.new_tailIdx, hO, hS] at this
    rw [this]
    unfold GridRect.cells
    exact List.map_reverse _ _

/-- C2, witness: the interleaving theorem applied to the 2x2 rect at the
origin and the run `next, next_back, next, next_back`. -/
theorem gridRectIter_interleave_witness :
    (((GridRectIter.new (GridRect.mk ⟨0, 0⟩ ⟨2, 2⟩)).run [true, false, true, false]).1.Nodup ∧
      ∀ c ∈ ((GridRectIter.new (GridRect.mk ⟨0, 0⟩ ⟨2, 2⟩)).run [true, false, true, false]).1,
        c ∈ (GridRect.mk ⟨0, 0⟩ ⟨2, 2⟩).cells) ∧
    (((GridRectIter.new (GridRect.mk ⟨0, 0⟩ ⟨2, 2⟩)).run [true, false, true, false]).2.exhausted →
      ((GridRectIter.new (GridRect.mk ⟨0, 0⟩ ⟨2, 2⟩)).run [true, false, true, false]).1.Perm
        (GridRect.mk ⟨0, 0⟩ ⟨2, 2⟩).cells) ∧
    ((GridRectIter.new (GridRect.mk ⟨0, 0⟩ ⟨2, 2⟩)).run
        (List.replicate ((GridRect.mk ⟨0, 0⟩ ⟨2, 2⟩).size.x.toNat *
          (GridRect.mk ⟨0, 0⟩ ⟨2, 2⟩).size.y.toNat) true)).1 =
      (GridRect.mk ⟨0, 0⟩ ⟨2, 2⟩).cells ∧
    ((GridRectIter.new (GridRect.mk ⟨0, 0⟩ ⟨2, 2⟩)).run
        (List.replicate ((GridRect.mk ⟨0, 0⟩ ⟨2, 2⟩).size.x.toNat *
          (GridRect.mk ⟨0, 0⟩ ⟨2, 2⟩).size.y.toNat) false)).1 =
      (GridRect.mk ⟨0, 0⟩ ⟨2, 2⟩).cells.reverse :=
  gridRectIter_interleave (GridRect.mk ⟨0, 0⟩ ⟨2, 2⟩) (by decide) (by decide)
    [true, false, true, false]

/-- C2, counterexample to the claim as stated (which allows any
non-negative size): the 0x2 rect has `width*height = 0` cells, yet a
single `next_back` call emits the cell `[-1, 1]`, which is not a cell of
the rect. -/
theorem gridRectIter_zero_width_counterexample :
    (0 : ℤ) ≤ (GridRect.mk ⟨0, 0⟩ ⟨0, 2⟩).size.x ∧
    (0 : ℤ) ≤ (GridRect.mk ⟨0, 0⟩ ⟨0, 2⟩).size.y ∧
    ((GridRectIter.new (GridRect.mk ⟨0, 0⟩ ⟨0, 2⟩)).run [false]).1 = [⟨-1, 1⟩] ∧
    (GridRect.mk ⟨0, 0⟩ ⟨0, 2⟩).cells = [] := by decide

/-- Coordinates strictly within `±2^30` (`1073741824 = 2^30`): a
sufficient bound under which the `i32` size computation `(max - min) + 1`
of `from_points` cannot overflow. -/
def Bounded30 (v : IVec2) : Prop :=
  -1073741824 < v.x ∧ v.x < 1073741824 ∧ -1073741824 < v.y ∧ v.y < 1073741824

instance (v : IVec2) : Decidable (Bounded30 v) := by unfold Bounded30; infer_instance

theorem Bounded30.cmin {u v : IVec2} (hu : Bounded30 u) (hv : Bounded30 v) :
    Bounded30 (u.cmin v) := by
  obtain ⟨h1, h2, h3, h4⟩ := hu
  obtain ⟨h5, _, h7, _⟩ := hv
  unfold IVec2.cmin Bounded30
  dsimp only
  exact ⟨lt_min h1 h5, lt_of_le_of_lt (min_le_left _ _) h2,
    lt_min h3 h7, lt_of_le_of_lt (min_le_left _ _) h4⟩

theorem Bounded30.cmax {u v : IVec2} (hu : Bounded30 u) (hv : Bounded30 v) :
    Bounded30 (u.cmax v) := by
  obtain ⟨h1, h2, h3, h4⟩ := hu
  obtain ⟨_, h6, _, h8⟩ := hv
  unfold IVec2.cmax Bounded30
  dsimp only
  exact ⟨lt_of_lt_of_le h1 (le_max_left _ _), max_lt h2 h6,
    lt_of_lt_of_le h3 (le_max_left _ _), max_lt h4 h8⟩

/-- C10, auxiliary: for corner points within `±2^30` the wrapping i32
size computation is exact, and the rect built by `from_points` has both
size components at least 1 and `min ≤ max` componentwise. -/
theorem from_points_aux {a b : IVec2} (ha : Bounded30 a) (hb : Bounded30 b) :
    1 ≤ (GridRect.from_points a b).size.x ∧ 1 ≤ (GridRect.from_points a b).size.y ∧
      (GridRect.from_points a b).min.le (GridRect.from_points a b).max := by
  obtain ⟨ha1, ha2, ha3, ha4⟩ := ha
  obtain ⟨hb1, hb2, hb3, hb4⟩ := hb
  have hx1 : Min.min a.x b.x ≤ Max.max a.x b.x :=
    le_trans (min_le_left _ _) (le_max_left _ _)
  have hx2 : -1073741824 < Min.min a.x b.x := lt_min ha1 hb1
  have hx3 : Max.max a.x b.x < 1073741824 := max_lt ha2 hb2
  have hy1 : Min.min a.y b.y ≤ Max.max a.y b.y :=
    le_trans (min_le_left _ _) (le_max_left _ _)
  have hy2 : -1073741824 < Min.min a.y b.y := lt_min ha3 hb3
  have hy3 : Max.max a.y b.y < 1073741824 := max_lt ha4 hb4
  unfold GridRect.from_points GridRect.min GridRect.max IVec2.cmin IVec2.cmax IVec2.le
  dsimp only
  rw [@wrap32_eq_self (Max.max a.x b.x - Min.min a.x b.x) (by omega) (by omega),
    @wrap32_eq_self (Max.max a.x b.x - Min.min a.x b.x + 1) (by omega) (by omega),
    @wrap32_eq_self (Max.max a.y b.y - Min.min a.y b.y) (by omega) (by omega),
    @wrap32_eq_self (Max.max a.y b.y - Min.min a.y b.y + 1) (by omega) (by omega)]
  exact ⟨by omega, by omega, by omega, by omega⟩

/-- Under the `±2^30` bound the constructed rect's `max` corner is the
componentwise maximum of the two corner arguments. -/
theorem from_points_max {a b : IVec2} (ha : Bounded30 a) (hb : Bounded30 b) :
    (GridRect.from_points a b).max = a.cmax b := by
  obtain ⟨ha1, ha2, ha3, ha4⟩ := ha
  obtain ⟨hb1, hb2, hb3, hb4⟩ := hb
  have hx1 : Min.min a.x b.x ≤ Max.max a.x b.x :=
    le_trans (min_le_left _ _) (le_max_left _ _)
  have hx2 : -1073741824 < Min.min a.x b.x := lt_min ha1 hb1
  have hx3 : Max.max a.x b.x < 1073741824 := max_lt ha2 hb2
  have hy1 : Min.min a.y b.y ≤ Max.max a.y b.y :=
    le_trans (min_le_left _ _) (le_max_left _ _)
  have hy2 : -1073741824 < Min.min a.y b.y := lt_min ha3 hb3
  have hy3 : Max.max a.y b.y < 1073741824 := max_lt ha4 hb4
  unfold GridRect.from_points GridRect.max IVec2.cmin IVec2.cmax
  dsimp only
  rw [@wrap32_eq_self (Max.max a.x b.x - Min.min a.x b.x) (by omega) (by omega),
    @wrap32_eq_self (Max.max a.x b.x - Min.min a.x b.x + 1) (by omega) (by omega),
    @wrap32_eq_self (Max.max a.y b.y - Min.min a.y b.y) (by omega) (by omega),
    @wrap32_eq_self (Max.max a.y b.y - Min.min a.y b.y + 1) (by omega) (by omega)]
  simp only [IVec2.mk.injEq]
  exact ⟨by omega, by omega⟩

/-- C10 (amended to inputs that cannot overflow the i32 size
computation): every rect produced by `from_points` — and therefore by
`clipped`, `envelope_point` and `envelope_rect`, which all construct
their result through `from_points` — has `size ≥ 1` and `min ≤ max`
componentwise, for all inputs (including swapped corners and a disjoint
clipper) whose corner points — the two points, and the `min`/`max`
corners of the rect arguments — have coordinates strictly within
`±2^30`.  Without such a bound the claim is false of the program:
`from_points_overflow_counterexample`. -/
theorem from_points_invariant (a b : IVec2) (r s : GridRect) (p : IVec2)
    (ha : Bounded30 a) (hb : Bounded30 b) (hp : Bounded30 p)
    (hr1 : Bounded30 r.min) (hr2 : Bounded30 r.max)
    (hs1 : Bounded30 s.min) (hs2 : Bounded30 s.max) :
    (1 ≤ (GridRect.from_points a b).size.x ∧ 1 ≤ (GridRect.from_points a b).size.y ∧
      (GridRect.from_points a b).min.le (GridRect.from_points a b).max) ∧
    (1 ≤ (r.clipped s).size.x ∧ 1 ≤ (r.clipped s).size.y ∧
      (r.clipped s).min.le (r.clipped s).max) ∧
    (1 ≤ (r.envelope_point p).size.x ∧ 1 ≤ (r.envelope_point p).size.y ∧
      (r.envelope_point p).min.le (r.envelope_point p).max) ∧
    (1 ≤ (r.envelope_rect s).size.x ∧ 1 ≤ (r.envelope_rect s).size.y ∧
      (r.envelope_rect s).min.le (r.envelope_rect s).max) := by
  have hA : Bounded30 ((r.envelope_point s.min).min) := by
    show Bounded30 ((r.min.cmin s.min).cmin (r.max.cmax s.min))
    exact (hr1.cmin hs1).cmin (hr2.cmax hs1)
  have hB : Bounded30 ((r.envelope_point s.min).max) := by
    have he : r.envelope_point s.min =
        GridRect.from_points (r.min.cmin s.min) (r.max.cmax s.min) := rfl
    rw [he, from_points_max (hr1.cmin hs1) (hr2.cmax hs1)]
    exact (hr1.cmin hs1).cmax (hr2.cmax hs1)
  exact ⟨from_points_aux ha hb, from_points_aux (hr1.cmax hs1) (hr2.cmin hs2),
    from_points_aux (hr1.cmin hp) (hr2.cmax hp),
    from_points_aux (hA.cmin hs2) (hB.cmax hs2)⟩

/-- C10, counterexample to the claim as stated (which covers every
input): at the extreme corners `[i32::MIN, 0]` and `[i32::MAX, 0]` the
release-build computation `(max - min) + 1` wraps to `0`, so the
constructed rect has zero width, violating the claimed unconditional
`size.x ≥ 1` invariant (a debug build panics on the same input). -/
theorem from_points_overflow_counterexample :
    (GridRect.from_points ⟨-2147483648, 0⟩ ⟨2147483647, 0⟩).size.x = 0 ∧
    ¬ 1 ≤ (GridRect.from_points ⟨-2147483648, 0⟩ ⟨2147483647, 0⟩).size.x := by decide

/-- C10, witness: the invariant theorem applied at small concrete
inputs, with swapped corner arguments for `from_points`. -/
theorem from_points_invariant_witness :
    (1 ≤ (GridRect.from_points ⟨5, 5⟩ ⟨0, 0⟩).size.x ∧
      1 ≤ (GridRect.from_points ⟨5, 5⟩ ⟨0, 0⟩).size.y ∧
      (GridRect.from_points ⟨5, 5⟩ ⟨0, 0⟩).min.le (GridRect.from_points ⟨5, 5⟩ ⟨0, 0⟩).max) ∧
    (1 ≤ ((GridRect.mk ⟨0, 0⟩ ⟨2, 2⟩).clipped (GridRect.mk ⟨1, 1⟩ ⟨3, 3⟩)).size.x ∧
      1 ≤ ((GridRect.mk ⟨0, 0⟩ ⟨2, 2⟩).clipped (GridRect.mk ⟨1, 1⟩ ⟨3, 3⟩)).size.y ∧
      ((GridRect.mk ⟨0, 0⟩ ⟨2, 2⟩).clipped (GridRect.mk ⟨1, 1⟩ ⟨3, 3⟩)).min.le
        ((GridRect.mk ⟨0, 0⟩ ⟨2, 2⟩).clipped (GridRect.mk ⟨1, 1⟩ ⟨3, 3⟩)).max) ∧
    (1 ≤ ((GridRect.mk ⟨0, 0⟩ ⟨2, 2⟩).envelope_point ⟨7, 7⟩).size.x ∧
      1 ≤ ((GridRect.mk ⟨0, 0⟩ ⟨2, 2⟩).envelope_point ⟨7, 7⟩).size.y ∧
      ((GridRect.mk ⟨0, 0⟩ ⟨2, 2⟩).envelope_point ⟨7, 7⟩).min.le
        ((GridRect.mk ⟨0, 0⟩ ⟨2, 2⟩).envelope_point ⟨7, 7⟩).max) ∧
    (1 ≤ ((GridRect.mk ⟨0, 0⟩ ⟨2, 2⟩).envelope_rect (GridRect.mk ⟨1, 1⟩ ⟨3, 3⟩)).size.x ∧
      1 ≤ ((GridRect.mk ⟨0, 0⟩ ⟨2, 2⟩).envelope_rect (GridRect.mk ⟨1, 1⟩ ⟨3, 3⟩)).size.y ∧
      ((GridRect.mk ⟨0, 0⟩ ⟨2, 2⟩).envelope_rect (GridRect.mk ⟨1, 1⟩ ⟨3, 3⟩)).min.le
        ((GridRect.mk ⟨0, 0⟩ ⟨2, 2⟩).envelope_rect (GridRect.mk ⟨1, 1⟩ ⟨3, 3⟩)).max) :=
  from_points_invariant ⟨5, 5⟩ ⟨0, 0⟩ (GridRect.mk ⟨0, 0⟩ ⟨2, 2⟩) (GridRect.mk ⟨1, 1⟩ ⟨3, 3⟩)
    ⟨7, 7⟩ (by decide) (by decide) (by decide) (by decide) (by decide) (by decide) (by decide)

/-- C1: the code evaluated at the disjoint unit rects `A` covering only
`[0,0]` and `B` covering only `[5,5]`: they share no cell, yet
`A.clipped(B)` is the 6x6 rect spanning both — its min does not exceed
its max (not degenerate) and it iterates 36 cells, not zero. -/
theorem clipped_disjoint_eval :
    ((GridRect.from_points ⟨0, 0⟩ ⟨0, 0⟩).cells.inter
      (GridRect.from_points ⟨5, 5⟩ ⟨5, 5⟩).cells = []) ∧
    (GridRect.from_points ⟨0, 0⟩ ⟨0, 0⟩).clipped (GridRect.from_points ⟨5, 5⟩ ⟨5, 5⟩) =
      GridRect.mk ⟨0, 0⟩ ⟨6, 6⟩ ∧
    ((GridRect.from_points ⟨0, 0⟩ ⟨0, 0⟩).clipped
      (GridRect.from_points ⟨5, 5⟩ ⟨5, 5⟩)).min.le
      (((GridRect.from_points ⟨0, 0⟩ ⟨0, 0⟩).clipped
        (GridRect.from_points ⟨5, 5⟩ ⟨5, 5⟩)).max) ∧
    ((GridRect.from_points ⟨0, 0⟩ ⟨0, 0⟩).clipped
      (GridRect.from_points ⟨5, 5⟩ ⟨5, 5⟩)).cells.length = 36 := by decide

/-- C3: evaluated at `from_points([0,0],[5,5])`: the code's
`pivot_point(BottomRight)` returns `[5,5]`, while the fixed corner order
of `corners()` (and the repo's own `corners` test) puts the bottom-right
corner at `[5,0]`. -/
theorem pivot_point_bottom_right_eval :
    (GridRect.from_points ⟨0, 0⟩ ⟨5, 5⟩).pivot_point Pivot.BottomRight = ⟨5, 5⟩ ∧
    (GridRect.from_points ⟨0, 0⟩ ⟨5, 5⟩).corners = [⟨0, 0⟩, ⟨0, 5⟩, ⟨5, 5⟩, ⟨5, 0⟩] ∧
    (GridRect.from_points ⟨0, 0⟩ ⟨5, 5⟩).pivot_point Pivot.BottomRight ≠
      IVec2.mk 5 0 := by decide

/-- Modulus of Rust `usize` arithmetic on a 64-bit target. -/
def USIZE : ℕ := 2 ^ 64

/-- Wrapping `usize` subtraction, the release-build semantics of `a - b`
for `b ≤ 2^64` (debug builds panic on underflow instead). -/
def wsub (a b : ℕ) : ℕ := (a + (USIZE - b)) % USIZE

/-- Model of `Iterator::step_by(step)` on a list: keep the elements whose
index is a multiple of `step`. -/
def listStepBy (step : ℕ) (l : List IVec2) : List IVec2 :=
  (l.enum.filter (fun q => q.1 % step = 0)).map Prod.snd

namespace GridRect

/-- Model of `GridRect::width`: `size.x as usize` (all uses below have
non-negative sizes, where the cast is the identity). -/
def width (r : GridRect) : ℕ := r.size.x.toNat

/-- Model of `GridRect::height`. -/
def height (r : GridRect) : ℕ := r.size.y.toNat

/-- Model of `GridRect::top`: `height() - 1` in `usize`. -/
def top (r : GridRect) : ℕ := wsub r.height 1

/-- Model of `GridRect::right`: `width() - 1` in `usize`. -/
def right (r : GridRect) : ℕ := wsub r.width 1

/-- Model of `GridRect::iter_col`: `iter().skip(col).step_by(width)`.
The forward iteration of `GridRectIter` is the row-major cell list
(`gridRectIter_interleave`, third conjunct). -/
def iter_col (r : GridRect) (col : ℕ) : List IVec2 :=
  listStepBy r.width (r.cells.drop col)

/-- Model of `GridRect::iter_row`: `iter().skip(row*width).take(width)`. -/
def iter_row (r : GridRect) (row : ℕ) : List IVec2 :=
  (r.cells.drop (row * r.width)).take r.width

/-- Model of `GridRect::iter_border`: left column, then top row without
its end cells, then right column reversed, then bottom row reversed
without its end cells.  The `width() - 2` counts use wrapping `usize`
subtraction (release semantics; a debug build panics for width < 2). -/
def iter_border (r : GridRect) : List IVec2 :=
  r.iter_col 0 ++
  ((r.iter_row r.top).drop 1).take (wsub r.width 2) ++
  (r.iter_col r.right).reverse ++
  ((r.iter_row 0).reverse.drop 1).take (wsub r.width 2)

end GridRect

/-- C4: evaluated at a 1x1 rect, `iter_border` yields the single cell of
the rect twice (the left and right column are the same column), not
once; on the 6x6 rect of the repo's own test the model reproduces the
expected 20 border cells. -/
theorem iter_border_one_by_one_eval :
    (GridRect.mk ⟨0, 0⟩ ⟨1, 1⟩).iter_border = [⟨0, 0⟩, ⟨0, 0⟩] ∧
    ¬ (GridRect.mk ⟨0, 0⟩ ⟨1, 1⟩).iter_border.Nodup ∧
    (GridRect.from_points ⟨0, 0⟩ ⟨5, 5⟩).iter_border.length = 20 := by decide

/-- Drive a step function `k` times, collecting every result (including
`none`s, so that termination behaviour is visible). -/
def iterOuts {σ : Type} (step : σ → Option IVec2 × σ) : ℕ → σ → List (Option IVec2)
  | 0, _ => []
  | k + 1, s => (step s).1 :: iterOuts step k (step s).2

/-- Modelled from the spec: the `direction` module is absent from the
provided sources.  Spec section 4.6 walks the four diagonal directions
down-right, down-left, up-left, up-right on a +Y-up grid, starting from
directly above the center, so the constants are the evident unit
diagonals and `UP = [0, 1]`. -/
def UP : IVec2 := ⟨0, 1⟩

/-- Modelled from the spec: diagonal direction, see `UP`. -/
def DOWN_RIGHT : IVec2 := ⟨1, -1⟩

/-- Modelled from the spec: diagonal direction, see `UP`. -/
def DOWN_LEFT : IVec2 := ⟨-1, -1⟩

/-- Modelled from the spec: diagonal direction, see `UP`. -/
def UP_LEFT : IVec2 := ⟨-1, 1⟩

/-- Modelled from the spec: diagonal direction, see `UP`. -/
def UP_RIGHT : IVec2 := ⟨1, 1⟩

/-- Model of `DIRECTIONS` in grid_diamond.rs. -/
def DIRECTIONS : List IVec2 := [DOWN_RIGHT, DOWN_LEFT, UP_LEFT, UP_RIGHT]

/-- Model of `GridDiamondIter`. -/
structure GridDiamondIter where
  origin : IVec2
  p : IVec2
  layer : ℕ
  i : ℤ
  dir_index : ℤ
  size : ℕ
deriving DecidableEq

/-- Model of `GridDiamondIter::new`. -/
def GridDiamondIter.new (pos : IVec2) (size : ℕ) : GridDiamondIter :=
  ⟨pos, pos, 0, -1, -1, size⟩

/-- Model of `<GridDiamondIter as Iterator>::next`.  The source indexes
`DIRECTIONS[dir_index as usize]`; on every reachable state the index is
in `0..4`, modelled with `getD` and a dummy default. -/
def GridDiamondIter.next (it : GridDiamondIter) : Option IVec2 × GridDiamondIter :=
  let i := it.i + 1
  if i ≥ 4 * (it.layer : ℤ) then
    let layer := it.layer + 1
    if layer > it.size then (none, { it with i := i, layer := layer })
    else
      let p := it.origin + ⟨0, (layer : ℤ)⟩
      (some p, { it with i := -1, dir_index := -1, p := p, layer := layer })
  else
    let dir_index := if i % (it.layer : ℤ) = 0 then it.dir_index + 1 else it.dir_index
    let dir := DIRECTIONS.getD dir_index.toNat ⟨0, 0⟩
    let p := it.p + dir
    (some p, { it with i := i, dir_index := dir_index, p := p })

/-- C5: evaluated at the origin: the radius-0 diamond yields no cell at
all (the claim requires the single center cell); the radius-1 diamond
yields five cells — the cell above the center first (never the center),
with `[0, 1]` emitted twice (the claim requires the center followed by 4
distinct ring cells). -/
theorem gridDiamond_eval :
    iterOuts GridDiamondIter.next 1 (GridDiamondIter.new ⟨0, 0⟩ 0) = [none] ∧
    iterOuts GridDiamondIter.next 6 (GridDiamondIter.new ⟨0, 0⟩ 1) =
      [some ⟨0, 1⟩, some ⟨1, 0⟩, some ⟨0, -1⟩, some ⟨-1, 0⟩, some ⟨0, 1⟩, none] ∧
    some (IVec2.mk 0 0) ∉ iterOuts GridDiamondIter.next 6 (GridDiamondIter.new ⟨0, 0⟩ 1) := by
  decide

/-- Componentwise absolute value (`IVec2::abs`). -/
def IVec2.cabs (a : IVec2) : IVec2 := ⟨|a.x|, |a.y|⟩

/-- Componentwise signum (`IVec2::signum`). -/
def IVec2.csign (a : IVec2) : IVec2 := ⟨Int.sign a.x, Int.sign a.y⟩

/-- Exact-real model of the `f32` comparison `(0.5 + a)/n < (0.5 + b)/m`
in `next_dir`, where `n, m ≥ 0` are absolute deltas.  A zero denominator
gives `+inf` for the positive numerator `a + 0.5 > 0` (when `0 ≤ a`) and
`-inf` otherwise, exactly as IEEE division does; `inf < inf` and
`-inf < -inf` are false.  For two positive denominators the comparison is
the exact cross-multiplied one; f32 computes it exactly for the small
magnitudes every theorem below uses. -/
def fltHalf (a n b m : ℤ) : Bool :=
  if n = 0 then
    if 0 ≤ a then false
    else if m = 0 ∧ b < 0 then false else true
  else if m = 0 then
    decide (0 ≤ b)
  else
    decide ((2 * a + 1) * m < (2 * b + 1) * n)

/-- Model of `next_dir` in grid_line.rs. -/
def next_dir (i n sign : IVec2) : IVec2 :=
  if fltHalf i.x n.x i.y n.y then ⟨sign.x, 0⟩ else ⟨0, sign.y⟩

/-- Model of `GridLineOrthoIter`. -/
structure GridLineOrthoIter where
  n : IVec2
  p : IVec2
  i : IVec2
  sign : IVec2
deriving DecidableEq

/-- Model of `GridLineOrthoIter::new`. -/
def GridLineOrthoIter.new (start stop : IVec2) : GridLineOrthoIter :=
  let d := stop - start
  let n := d.cabs
  let sign := d.csign
  let first := next_dir ⟨0, 0⟩ n sign
  ⟨n, start - first, ⟨-(|first.x|), -(|first.y|)⟩, sign⟩

/-- Model of `<GridLineOrthoIter as Iterator>::next`. -/
def GridLineOrthoIter.next (it : GridLineOrthoIter) : Option IVec2 × GridLineOrthoIter :=
  let dir := next_dir it.i it.n it.sign
  let i := it.i + dir.cabs
  if i.x > it.n.x ∨ i.y > it.n.y then (none, { it with i := i })
  else
    let p := it.p + dir
    (some p, { it with i := i, p := p })

theorem gridLineOrtho_new_self (s : IVec2) :
    GridLineOrthoIter.new s s = ⟨⟨0, 0⟩, s, ⟨0, 0⟩, ⟨0, 0⟩⟩ := by
  unfold GridLineOrthoIter.new next_dir fltHalf IVec2.cabs IVec2.csign
  simp [IVec2.sub_def]

theorem gridLineOrtho_next_stuck (p : IVec2) :
    GridLineOrthoIter.next ⟨⟨0, 0⟩, p, ⟨0, 0⟩, ⟨0, 0⟩⟩ =
      (some p, ⟨⟨0, 0⟩, p, ⟨0, 0⟩, ⟨0, 0⟩⟩) := by
  unfold GridLineOrthoIter.next next_dir fltHalf IVec2.cabs
  simp [IVec2.add_def]

/-- C6: evaluated at `start = end`: the code's iterator is stuck on a
fixed point — every one of the first `k` calls yields `start` again and
`none` is never returned, for all `k` (the claim requires exactly
`|dx| + |dy| + 1 = 1` cell followed by termination). -/
theorem gridLineOrtho_start_eq_end_diverges (s : IVec2) (k : ℕ) :
    iterOuts GridLineOrthoIter.next k (GridLineOrthoIter.new s s) =
      List.replicate k (some s) := by
  rw [gridLineOrtho_new_self]
  induction k with
  | zero => rfl
  | succ k ih =>
    show (GridLineOrthoIter.next _).1 :: iterOuts GridLineOrthoIter.next k
      (GridLineOrthoIter.next _).2 = _
    rw [gridLineOrtho_next_stuck]
    rw [List.replicate_succ]
    exact congrArg _ ih

/-- Model of `diag_distance`: `max(|dx|, |dy|)`. -/
def diag_distance (p1 p2 : IVec2) : ℤ := Max.max (|p2.x - p1.x|) (|p2.y - p1.y|)

/-- Model of `GridLineIter` (`end` is a reserved word, called `stop`). -/
structure GridLineIter where
  start : IVec2
  dist : ℤ
  step : ℤ
  stop : IVec2
deriving DecidableEq

/-- Model of `GridLineIter::new`. -/
def GridLineIter.new (start stop : IVec2) : GridLineIter :=
  ⟨start, diag_distance start stop, 0, stop⟩

/-- Exact model of the f32 quotient `t = step / dist`: `none` is NaN,
produced by `0.0 / 0.0` (the iterator only reaches `dist = 0` with
`step = 0`); with `dist > 0` the model is the exact rational, which f32
computes exactly at the inputs the theorems below use. -/
def stepT (step dist : ℤ) : Option ℚ :=
  if dist = 0 then none else some ((step : ℚ) / (dist : ℚ))

/-- f32 `round`: round half away from zero. -/
def roundHalfAway (q : ℚ) : ℤ := if 0 ≤ q then ⌊q + 1 / 2⌋ else ⌈q - 1 / 2⌉

/-- One component of `p1.lerp(p2, t).round().as_ivec2()`: NaN propagates
through `a + (b - a) * t` and `round`, and Rust's NaN-to-i32 `as` cast
yields 0. -/
def lerpRound (a b : ℤ) (t : Option ℚ) : ℤ :=
  match t with
  | none => 0
  | some q => roundHalfAway ((a : ℚ) + ((b : ℚ) - (a : ℚ)) * q)

/-- Model of `lerp_pos`. -/
def lerp_pos (p1 p2 : IVec2) (t : Option ℚ) : IVec2 :=
  ⟨lerpRound p1.x p2.x t, lerpRound p1.y p2.y t⟩

/-- Model of `<GridLineIter as Iterator>::next`. -/
def GridLineIter.next (it : GridLineIter) : Option IVec2 × GridLineIter :=
  if it.step > it.dist then (none, it)
  else
    (some (lerp_pos it.start it.stop (stepT it.step it.dist)), { it with step := it.step + 1 })

/-- C7: evaluated at `start = end = [5, 5]`: the code computes
`t = 0/0 = NaN`, the NaN propagates through the lerp and round, and the
NaN-to-int cast turns it into `[0, 0]` — the single yielded cell is
`[0, 0]`, not the start cell `[5, 5]` the claim requires. -/
theorem gridLine_start_eq_end_eval :
    iterOuts GridLineIter.next 2 (GridLineIter.new ⟨5, 5⟩ ⟨5, 5⟩) = [some ⟨0, 0⟩, none] ∧
    IVec2.mk 0 0 ≠ IVec2.mk 5 5 := by decide

/-- Model of `GridRect::from_center_size`: `bottom-left = center - size/2`
with Rust `i32` division (truncation toward zero). -/
def GridRect.from_center_size (center size : IVec2) : GridRect :=
  ⟨⟨center.x - Int.tdiv size.x 2, center.y - Int.tdiv size.y 2⟩, size⟩

/-- Modelled from the spec: `GridRect::origin(size)`, called by
`GridCircleIter::new`, is absent from the provided sources.  Spec
section 4.4 builds the bounding square around the center, and the
sibling constructors (`GridRect::center_origin`, `GridCircle::origin`,
`GridDiamond::origin`) all place the center at `[0, 0]`, so it is
modelled as `from_center_size([0, 0], size)`. -/
def GridRect.origin_rect (size : IVec2) : GridRect :=
  GridRect.from_center_size ⟨0, 0⟩ size

/-- One component of the stored circle center `center.as_vec2() + 0.5`
cast back by `as_ivec2` (truncation toward zero): for an integer
coordinate `c`, `trunc(c + 0.5)` is `c` when `0 ≤ c` and `c + 1` when `c`
is negative.  Exact: f32 represents `c + 0.5` exactly for `|c| < 2^22`. -/
def truncHalfUp (c : ℤ) : ℤ := if 0 ≤ c then c else c + 1

/-- Model of `inside_circle(p, radius)` with the radius already biased by
`+0.5`: the f32 test `p.x² + p.y² ≤ (r + 0.5)²` written exactly over ℤ as
`4·(p.x² + p.y²) ≤ (2r + 1)²` (f32 computes both sides exactly for the
small radii and offsets the theorems below use). -/
def inside_circle (p : IVec2) (radius : ℕ) : Bool :=
  decide (4 * (p.x * p.x + p.y * p.y) ≤ (2 * (radius : ℤ) + 1) ^ 2)

/-- Model of the full `GridCircleIter` enumeration: cells of the
bounding rect `GridRect::origin([2r+1, 2r+1])` (its forward iteration is
its row-major cell list, `gridRectIter_interleave`), filtered by
`inside_circle(p, r + 0.5)` and offset by the stored center
`c = center.as_vec2() + 0.5` cast back with `as_ivec2`, which truncates
toward zero. -/
def GridCircleIter.cells (center : IVec2) (radius : ℕ) : List IVec2 :=
  ((GridRect.origin_rect ⟨2 * (radius : ℤ) + 1, 2 * (radius : ℤ) + 1⟩).cells.filter
    (fun p => inside_circle p radius)).map
    (fun p => IVec2.mk (truncHalfUp center.x) (truncHalfUp center.y) + p)

/-- C8: evaluated at radius 0: a non-negative center is reproduced
exactly, but the center `[-5, -5]` yields the single cell `[-4, -4]` —
the `+0.5` offset truncates toward zero, shifting every negative
coordinate by one (the claim requires the center cell itself). -/
theorem gridCircle_radius_zero_eval :
    GridCircleIter.cells ⟨5, 5⟩ 0 = [⟨5, 5⟩] ∧
    GridCircleIter.cells ⟨-5, -5⟩ 0 = [⟨-4, -4⟩] ∧
    IVec2.mk (-4) (-4) ≠ IVec2.mk (-5) (-5) := by decide

/-- The exact integer edge cross product: the reference value the claim
compares the code's test against. -/
def signExact (p1 p2 p3 : IVec2) : ℤ :=
  (p1.x - p3.x) * (p2.y - p3.y) - (p2.x - p3.x) * (p1.y - p3.y)

/-- Model of `sign` in grid_cone.rs: the edge cross product computed in
`i32` — every subtraction, multiplication and the final difference wraps
in release builds (`wrap32`; debug builds panic on the overflow). -/
def sign (p1 p2 p3 : IVec2) : ℤ :=
  wrap32 (wrap32 (wrap32 (p1.x - p3.x) * wrap32 (p2.y - p3.y)) -
    wrap32 (wrap32 (p2.x - p3.x) * wrap32 (p1.y - p3.y)))

/-- Model of `point_in_triangle`: accept unless the three edge cross
products contain both a strictly negative and a strictly positive
value. -/
def point_in_triangle (pt t0 t1 t2 : IVec2) : Bool :=
  let d1 := sign pt t0 t1
  let d2 := sign pt t1 t2
  let d3 := sign pt t2 t0
  let has_neg := decide (d1 < 0) || decide (d2 < 0) || decide (d3 < 0)
  let has_pos := decide (d1 > 0) || decide (d2 > 0) || decide (d3 > 0)
  !(has_neg && has_pos)

/-- Componentwise minimum of the three triangle corner points
(`points.iter().reduce(min)` in `GridConeIter::from_cone`). -/
def coneMin (t0 t1 t2 : IVec2) : IVec2 := (t0.cmin t1).cmin t2

/-- Componentwise maximum of the three triangle corner points. -/
def coneMax (t0 t1 t2 : IVec2) : IVec2 := (t0.cmax t1).cmax t2

/-- The box extent `d = (max + 1) - min` of `GridConeIter::from_cone`. -/
def coneBoxD (t0 t1 t2 : IVec2) : IVec2 := (coneMax t0 t1 t2) + ⟨1, 1⟩ - coneMin t0 t1 t2

/-- The bounding box walk of `GridConeIter::next`: `curr` goes from `0`
to `len = d.x * d.y`, visiting `min + [curr % width, curr / width]`. -/
def coneBoxList (t0 t1 t2 : IVec2) : List IVec2 :=
  (List.range (((coneBoxD t0 t1 t2).x * (coneBoxD t0 t1 t2).y).toNat)).map
    (fun curr => coneMin t0 t1 t2 +
      ⟨((curr % (coneBoxD t0 t1 t2).x.toNat : ℕ) : ℤ),
        ((curr / (coneBoxD t0 t1 t2).x.toNat : ℕ) : ℤ)⟩)

/-- Model of the full `GridConeIter` enumeration: the box walk filtered
by `point_in_triangle`. -/
def GridConeIter.cells (t0 t1 t2 : IVec2) : List IVec2 :=
  (coneBoxList t0 t1 t2).filter (fun p => point_in_triangle p t0 t1 t2)

theorem coneBoxD_pos (t0 t1 t2 : IVec2) :
    1 ≤ (coneBoxD t0 t1 t2).x ∧ 1 ≤ (coneBoxD t0 t1 t2).y := by
  unfold coneBoxD coneMax coneMin IVec2.cmax IVec2.cmin
  simp only [IVec2.add_def, IVec2.sub_def]
  constructor
  · have h1 : Min.min (Min.min t0.x t1.x) t2.x ≤ Min.min t0.x t1.x := min_le_left _ _
    have h2 : Min.min t0.x t1.x ≤ t0.x := min_le_left _ _
    have h3 : t0.x ≤ Max.max t0.x t1.x := le_max_left _ _
    have h4 : Max.max t0.x t1.x ≤ Max.max (Max.max t0.x t1.x) t2.x := le_max_left _ _
    omega
  · have h1 : Min.min (Min.min t0.y t1.y) t2.y ≤ Min.min t0.y t1.y := min_le_left _ _
    have h2 : Min.min t0.y t1.y ≤ t0.y := min_le_left _ _
    have h3 : t0.y ≤ Max.max t0.y t1.y := le_max_left _ _
    have h4 : Max.max t0.y t1.y ≤ Max.max (Max.max t0.y t1.y) t2.y := le_max_left _ _
    omega

/-- The cone's box walk is the row-major cell list of the box rect. -/
theorem coneBoxList_eq (t0 t1 t2 : IVec2) :
    coneBoxList t0 t1 t2 = (GridRect.mk (coneMin t0 t1 t2) (coneBoxD t0 t1 t2)).cells := by
  obtain ⟨hdx, _⟩ := coneBoxD_pos t0 t1 t2
  unfold coneBoxList GridRect.cells idxList
  rw [List.map_map]
  have hlen : ((coneBoxD t0 t1 t2).x * (coneBoxD t0 t1 t2).y - 1 + 1 - 0).toNat =
      ((coneBoxD t0 t1 t2).x * (coneBoxD t0 t1 t2).y).toNat := by omega
  rw [hlen]
  refine List.map_congr_left fun n hn => ?_
  show coneMin t0 t1 t2 + _ = cellAtIdx _ _ (0 + (n : ℤ))
  rw [zero_add]
  unfold cellAtIdx
  have hW : ((coneBoxD t0 t1 t2).x.toNat : ℤ) = (coneBoxD t0 t1 t2).x :=
    Int.toNat_of_nonneg (by omega)
  refine congrArg _ ?_
  have hm : ((n % (coneBoxD t0 t1 t2).x.toNat : ℕ) : ℤ) =
      (n : ℤ) % ((coneBoxD t0 t1 t2).x.toNat : ℤ) := by push_cast; ring
  have hd : ((n / (coneBoxD t0 t1 t2).x.toNat : ℕ) : ℤ) =
      (n : ℤ) / ((coneBoxD t0 t1 t2).x.toNat : ℤ) := by push_cast; ring
  simp only [IVec2.mk.injEq]
  constructor
  · rw [hm, hW]
    rfl
  · rw [hd, hW]
    rfl

/-- Within-bounds points are cells of the rect (converse direction of the
row-major enumeration). -/
theorem GridRect.mem_cells_of_bounds {r : GridRect} (hx : 1 ≤ r.size.x) (_hy : 1 ≤ r.size.y)
    {p : IVec2} (h1 : r.min.le p) (h2 : p.le r.max) : p ∈ r.cells := by
  unfold GridRect.min at h1
  unfold GridRect.max at h2
  obtain ⟨ha, hb⟩ := h1
  obtain ⟨hc, hd⟩ := h2
  dsimp only at hc hd
  unfold GridRect.cells
  have hbx : 0 ≤ p.x - r.xy.x := by omega
  have hbx' : p.x - r.xy.x < r.size.x := by omega
  have hr1 : r.size.x * (r.size.y - 1) = r.size.x * r.size.y - r.size.x := by ring
  have hmul : r.size.x * (p.y - r.xy.y) ≤ r.size.x * (r.size.y - 1) :=
    mul_le_mul_of_nonneg_left (by omega) (by omega)
  have hmul0 : 0 ≤ r.size.x * (p.y - r.xy.y) :=
    mul_nonneg (by omega) (by omega)
  refine List.mem_map.mpr ⟨r.size.x * (p.y - r.xy.y) + (p.x - r.xy.x),
    mem_idxList.mpr ⟨by omega, by linarith⟩, ?_⟩
  rw [cellAtIdx_at hbx hbx']
  show IVec2.mk (r.xy.x + (p.x - r.xy.x)) (r.xy.y + (p.y - r.xy.y)) = p
  have hex : p = IVec2.mk p.x p.y := rfl
  rw [hex]
  simp only [IVec2.mk.injEq]
  omega

/-- Coordinates strictly within `±2^14` (`16384 = 2^14`): a sufficient
bound under which none of the i32 operations in `sign` can wrap. -/
def Bounded14 (v : IVec2) : Prop :=
  -16384 < v.x ∧ v.x < 16384 ∧ -16384 < v.y ∧ v.y < 16384

instance (v : IVec2) : Decidable (Bounded14 v) := by unfold Bounded14; infer_instance

theorem mul_bound {u v : ℤ} (hu1 : -32767 < u) (hu2 : u < 32767)
    (hv1 : -32767 < v) (hv2 : v < 32767) :
    -1073741824 < u * v ∧ u * v < 1073741824 := by
  have h1 : |u| ≤ 32766 := by rw [abs_le]; omega
  have h2 : |v| ≤ 32766 := by rw [abs_le]; omega
  have h3 : |u * v| ≤ 32766 * 32766 := by
    rw [abs_mul]
    exact mul_le_mul h1 h2 (abs_nonneg _) (by norm_num)
  rw [abs_le] at h3
  constructor <;> linarith

/-- Under the `±2^14` coordinate bound no i32 operation in `sign` wraps,
so the computed cross product equals the exact one. -/
theorem sign_eq_exact {p1 p2 p3 : IVec2} (h1 : Bounded14 p1) (h2 : Bounded14 p2)
    (h3 : Bounded14 p3) : sign p1 p2 p3 = signExact p1 p2 p3 := by
  obtain ⟨a1, a2, a3, a4⟩ := h1
  obtain ⟨b1, b2, b3, b4⟩ := h2
  obtain ⟨c1, c2, c3, c4⟩ := h3
  unfold sign signExact
  rw [@wrap32_eq_self (p1.x - p3.x) (by omega) (by omega),
    @wrap32_eq_self (p2.y - p3.y) (by omega) (by omega),
    @wrap32_eq_self (p2.x - p3.x) (by omega) (by omega),
    @wrap32_eq_self (p1.y - p3.y) (by omega) (by omega)]
  have hA := mul_bound (by omega : (-32767 : ℤ) < p1.x - p3.x) (by omega)
    (by omega : (-32767 : ℤ) < p2.y - p3.y) (by omega)
  have hB := mul_bound (by omega : (-32767 : ℤ) < p2.x - p3.x) (by omega)
    (by omega : (-32767 : ℤ) < p1.y - p3.y) (by omega)
  rw [@wrap32_eq_self ((p1.x - p3.x) * (p2.y - p3.y)) (by omega) (by omega),
    @wrap32_eq_self ((p2.x - p3.x) * (p1.y - p3.y)) (by omega) (by omega),
    @wrap32_eq_self ((p1.x - p3.x) * (p2.y - p3.y) - (p2.x - p3.x) * (p1.y - p3.y))
      (by omega) (by omega)]

/-- C9 (amended to coordinates that cannot overflow the i32 cross
products): for every point and triangle with coordinates strictly within
`±2^14`, the cone membership test accepts exactly when the three exact
integer edge cross products do not contain both a strictly negative and
a strictly positive value; consequently a point of the triangle's
bounding box lying exactly on an edge (one cross product zero, the
others all of one sign) is included in the cone's enumeration.  Without
the bound the claim is false of the program:
`point_in_triangle_overflow_counterexample`. -/
theorem point_in_triangle_spec (t0 t1 t2 p : IVec2)
    (hb0 : Bounded14 t0) (hb1 : Bounded14 t1) (hb2 : Bounded14 t2) (hbp : Bounded14 p)
    (hbox : (coneMin t0 t1 t2).le p ∧ p.le (coneMax t0 t1 t2))
    (hedge : (signExact p t0 t1 = 0 ∨ signExact p t1 t2 = 0 ∨ signExact p t2 t0 = 0) ∧
      ((0 ≤ signExact p t0 t1 ∧ 0 ≤ signExact p t1 t2 ∧ 0 ≤ signExact p t2 t0) ∨
        (signExact p t0 t1 ≤ 0 ∧ signExact p t1 t2 ≤ 0 ∧ signExact p t2 t0 ≤ 0))) :
    (∀ q : IVec2, Bounded14 q → (point_in_triangle q t0 t1 t2 = true ↔
      ¬((signExact q t0 t1 < 0 ∨ signExact q t1 t2 < 0 ∨ signExact q t2 t0 < 0) ∧
        (0 < signExact q t0 t1 ∨ 0 < signExact q t1 t2 ∨ 0 < signExact q t2 t0)))) ∧
    p ∈ GridConeIter.cells t0 t1 t2 := by
  have hiff : ∀ q : IVec2, Bounded14 q → (point_in_triangle q t0 t1 t2 = true ↔
      ¬((signExact q t0 t1 < 0 ∨ signExact q t1 t2 < 0 ∨ signExact q t2 t0 < 0) ∧
        (0 < signExact q t0 t1 ∨ 0 < signExact q t1 t2 ∨ 0 < signExact q t2 t0))) := by
    intro q hq
    have e1 := sign_eq_exact hq hb0 hb1
    have e2 := sign_eq_exact hq hb1 hb2
    have e3 := sign_eq_exact hq hb2 hb0
    unfold point_in_triangle
    simp only [Bool.not_eq_eq_eq_not, Bool.not_true, Bool.and_eq_false_imp,
      Bool.or_eq_true, decide_eq_true_eq, Bool.and_eq_true, Bool.not_eq_true,
      Bool.or_eq_false_iff, decide_eq_false_iff_not, gt_iff_lt]
    rw [e1, e2, e3]
    omega
  obtain ⟨hdx, hdy⟩ := coneBoxD_pos t0 t1 t2
  refine ⟨hiff, ?_⟩
  unfold GridConeIter.cells
  rw [coneBoxList_eq]
  have hmax : (GridRect.mk (coneMin t0 t1 t2) (coneBoxD t0 t1 t2)).max = coneMax t0 t1 t2 := by
    unfold GridRect.max coneBoxD
    simp only [IVec2.add_def, IVec2.sub_def]
    have hex : coneMax t0 t1 t2 = IVec2.mk (coneMax t0 t1 t2).x (coneMax t0 t1 t2).y := rfl
    rw [hex]
    simp only [IVec2.mk.injEq]
    omega
  refine List.mem_filter.mpr ⟨GridRect.mem_cells_of_bounds hdx hdy hbox.1 ?_, ?_⟩
  · rw [hmax]
    exact hbox.2
  · exact (hiff p hbp).mpr (by obtain ⟨h0, hs⟩ := hedge; omega)

/-- C9, witness: the point `[2, 0]` lies on the edge from `[0, 0]` to
`[4, 0]` of that triangle (first cross product zero, others positive)
and is enumerated. -/
theorem point_in_triangle_spec_witness :
    (∀ q : IVec2, Bounded14 q → (point_in_triangle q ⟨0, 0⟩ ⟨4, 0⟩ ⟨0, 4⟩ = true ↔
      ¬((signExact q ⟨0, 0⟩ ⟨4, 0⟩ < 0 ∨ signExact q ⟨4, 0⟩ ⟨0, 4⟩ < 0 ∨
          signExact q ⟨0, 4⟩ ⟨0, 0⟩ < 0) ∧
        (0 < signExact q ⟨0, 0⟩ ⟨4, 0⟩ ∨ 0 < signExact q ⟨4, 0⟩ ⟨0, 4⟩ ∨
          0 < signExact q ⟨0, 4⟩ ⟨0, 0⟩)))) ∧
    IVec2.mk 2 0 ∈ GridConeIter.cells ⟨0, 0⟩ ⟨4, 0⟩ ⟨0, 4⟩ :=
  point_in_triangle_spec ⟨0, 0⟩ ⟨4, 0⟩ ⟨0, 4⟩ ⟨2, 0⟩ (by decide) (by decide) (by decide)
    (by decide) (by decide) (by decide)

/-- C9, counterexample to the claim as stated (which quantifies over
every point and triangle): at the triangle `t0 = [0, 46341]`,
`t1 = [0, 0]`, `t2 = [46342, 0]` and the point `q = [46341, 0]` — inside
the bounding box and exactly on the edge from `t1` to `t2`, with exact
cross products `(46341², 0, 46341)`, none negative — the release-build
i32 product `46341 * 46341` wraps to a negative value, so the code's
membership test rejects `q` (a debug build panics on the overflow),
while the claim requires it to be accepted and enumerated. -/
theorem point_in_triangle_overflow_counterexample :
    point_in_triangle ⟨46341, 0⟩ ⟨0, 46341⟩ ⟨0, 0⟩ ⟨46342, 0⟩ = false ∧
    signExact ⟨46341, 0⟩ ⟨0, 46341⟩ ⟨0, 0⟩ = 2147488281 ∧
    signExact ⟨46341, 0⟩ ⟨0, 0⟩ ⟨46342, 0⟩ = 0 ∧
    signExact ⟨46341, 0⟩ ⟨46342, 0⟩ ⟨0, 46341⟩ = 46341 ∧
    ¬((signExact ⟨46341, 0⟩ ⟨0, 46341⟩ ⟨0, 0⟩ < 0 ∨
        signExact ⟨46341, 0⟩ ⟨0, 0⟩ ⟨46342, 0⟩ < 0 ∨
        signExact ⟨46341, 0⟩ ⟨46342, 0⟩ ⟨0, 46341⟩ < 0) ∧
      (0 < signExact ⟨46341, 0⟩ ⟨0, 46341⟩ ⟨0, 0⟩ ∨
        0 < signExact ⟨46341, 0⟩ ⟨0, 0⟩ ⟨46342, 0⟩ ∨
        0 < signExact ⟨46341, 0⟩ ⟨46342, 0⟩ ⟨0, 46341⟩)) ∧
    (coneMin ⟨0, 46341⟩ ⟨0, 0⟩ ⟨46342, 0⟩).le ⟨46341, 0⟩ ∧
    IVec2.le ⟨46341, 0⟩ (coneMax ⟨0, 46341⟩ ⟨0, 0⟩ ⟨46342, 0⟩) := by decide

end SarkGrids
